import Mathlib

/-!
Shallow embedding of the adapt-authoring integration-test harness
(`bin/run.js`, `lib/app.js`, `lib/db.js`, `lib/fixtures.js`) in Lean 4,
together with theorems settling the specification claims about it.

Conventions used throughout:
* JavaScript objects (string-keyed records with insertion order) are
  embedded as association lists `List (String × String)`; property read,
  property assignment and `Object.keys` are `jsGet`, `jsSet`, `jsKeys`.
* Node file-system state is an explicit map `String → Option (List Nat)`
  from absolute paths to file bytes.
* `async` functions that may throw are embedded as `Except String`-valued
  functions; a JS `try/catch` is an explicit `match` on that result.
* Machine integers (timestamps) are `Nat`; template-literal number
  formatting is the decimal-digit function `decStr`.
-/

/-- Embedding of `path.join(a, b)` for the simple two-segment joins used in
this repository (no `..`, no trailing separators). -/
def pathJoin (a b : String) : String := a ++ "/" ++ b

/-- Property read `o[k]` on a JS object: first entry with the key, if any. -/
def jsGet : List (String × String) → String → Option String
  | [], _ => none
  | e :: es, k => if e.1 = k then some e.2 else jsGet es k

/-- Property assignment `o[k] = v` on a JS object: overwrite in place an
existing entry with key `k`, else append a new entry (JS insertion order). -/
def jsSet : List (String × String) → String → String → List (String × String)
  | [], k, v => [(k, v)]
  | e :: es, k, v => if e.1 = k then (k, v) :: es else e :: jsSet es k v

/-- Embedding of `Object.keys(o)`: the keys in insertion order. -/
def jsKeys (o : List (String × String)) : List String := o.map Prod.fst

/-- A `for (const [key, file] of Object.entries(src))` loop that assigns
`o[key] = file` for each entry of `src` in order. -/
def setAll (o : List (String × String)) (src : List (String × String)) :
    List (String × String) :=
  src.foldl (fun acc e => jsSet acc e.1 e.2) o

/-- A `for (const [key, _] of Object.entries(src))` loop that assigns
`o[key] = d` (one fixed value) for each entry of `src` in order. -/
def setAllConst (o : List (String × String)) (src : List (String × String))
    (d : String) : List (String × String) :=
  src.foldl (fun acc e => jsSet acc e.1 d) o

/-- Last-occurrence lookup in an entry list: the value the iterated
assignments leave behind for key `k`. -/
def lastGet : List (String × String) → String → Option String
  | [], _ => none
  | e :: es, k =>
    match lastGet es k with
    | some v => some v
    | none => if e.1 = k then some e.2 else none

/-- The digit characters produced by JS decimal number formatting. -/
def digitCh : Nat → Char
  | 0 => '0'
  | 1 => '1'
  | 2 => '2'
  | 3 => '3'
  | 4 => '4'
  | 5 => '5'
  | 6 => '6'
  | 7 => '7'
  | 8 => '8'
  | 9 => '9'
  | _ => '*'

/-- Most-significant-first decimal digit characters of `n`, computed with
explicit fuel (any fuel `≥ n` is enough, and `0` yields the empty list). -/
def decCharsCore : Nat → Nat → List Char
  | _, 0 => []
  | 0, _ + 1 => []
  | fuel + 1, n + 1 =>
    decCharsCore fuel ((n + 1) / 10) ++ [digitCh ((n + 1) % 10)]

/-- Embedding of the template-literal conversion of a nonnegative integer to
its decimal string, as in the JS interpolation of a number into a string. -/
def decStr (n : Nat) : String :=
  if n = 0 then "0" else String.mk (decCharsCore n n)

/-- Embedding of `array.join(', ')` on a list of strings. -/
def joinComma : List String → String
  | [] => ""
  | [s] => s
  | s :: ss => s ++ ", " ++ joinComma ss

/-!
Embedding of `lib/fixtures.js`.  The module-level mutable bindings
`manifest`, `resolvedDirs` and `tempDir` are threaded explicitly; the file
system and environment are explicit parameters.
-/

/-- The possible outcomes of `fs.readFile(dir/manifest.json)` followed by
`JSON.parse`: the file is absent (`ENOENT`), the read fails with some other
error, the content is not valid JSON, or it parses to an object (entry list). -/
inductive ReadOutcome where
  | missing : ReadOutcome
  | readErr : String → ReadOutcome
  | parseErr : String → ReadOutcome
  | parsed : List (String × String) → ReadOutcome

/-- Embedding of `readManifest(dir)`: returns `null` exactly when the failure is `ENOENT`;
every other read or parse error is rethrown. -/
def readManifest : ReadOutcome → Except String (Option (List (String × String)))
  | .missing => .ok none
  | .readErr e => .error e
  | .parseErr e => .error e
  | .parsed es => .ok (some es)

/-- The guidance message thrown by `getManifest` when no manifest is found. -/
def noManifestMsg (fixturesDir : String) : String :=
  String.intercalate "\n"
    [ "No fixtures manifest found at " ++ pathJoin fixturesDir ("manifest.json"),
      "",
      "To set up fixtures:",
      "  1. Create a manifest.json in the fixtures directory",
      "  2. Map fixture names to files, e.g.: \x7b \"course-export\": \"course-export.zip\" \x7d",
      "  3. Place the fixture files alongside the manifest",
      "",
      "To provide custom fixtures:",
      "  CUSTOM_DIR=/path/to/custom npx at-integration-test",
      "  (expects custom/fixtures/manifest.json)" ]

/-- The pair of module-level objects `manifest` / `resolvedDirs` that
`getManifest` populates. -/
structure ManifestResult where
  manifest : List (String × String)
  resolvedDirs : List (String × String)
deriving DecidableEq

/-- Embedding of `getManifest()` for a single (uncached) invocation.  `fixturesDir` is the
built-in fixtures directory, `customEnv` is `process.env.CUSTOM_DIR`, and the
two `ReadOutcome`s describe what reading each `manifest.json` yields.  The
custom manifest is only read when `CUSTOM_DIR` is set. -/
def getManifest (fixturesDir : String) (customEnv : Option String)
    (standardRead customRead : ReadOutcome) : Except String ManifestResult :=
  match readManifest standardRead with
  | .error e => .error e
  | .ok standard =>
    match customEnv with
    | none =>
      match standard with
      | none => .error (noManifestMsg fixturesDir)
      | some es =>
        .ok ⟨setAll [] es, setAllConst [] es fixturesDir⟩
    | some c =>
      let customDir := pathJoin c ("fixtures")
      match readManifest customRead with
      | .error e => .error e
      | .ok custom =>
        match standard, custom with
        | none, none => .error (noManifestMsg fixturesDir)
        | some es1, none =>
          .ok ⟨setAll [] es1, setAllConst [] es1 fixturesDir⟩
        | none, some es2 =>
          .ok ⟨setAll [] es2, setAllConst [] es2 customDir⟩
        | some es1, some es2 =>
          .ok ⟨setAll (setAll [] es1) es2,
               setAllConst (setAllConst [] es1 fixturesDir) es2 customDir⟩

/-- The error message of `getFixture` for a key whose manifest entry is
missing (or falsy): it lists every key of the merged manifest. -/
def keyNotFoundMsg (key : String) (m : List (String × String)) : String :=
  "Fixture \"" ++ key ++ "\" not found in manifest. Available: "
    ++ joinComma (jsKeys m)

/-- The state `getFixture` reads and writes: the file system (bytes by path)
and the module-level `tempDir` cache. -/
structure FixState where
  fs : String → Option (List Nat)
  tempDir : Option String

/-- Embedding of `getFixture(key)` for one invocation, after `getManifest` has produced the
merged `m`/`dirs` objects.  `freshTemp` is the directory `fs.mkdtemp` would
create if the temp workspace does not exist yet, and `now` is `Date.now()` at
the time of the call.  On success it returns the destination path together
with the updated state (the copy written, the temp dir cached). -/
def getFixture (m dirs : List (String × String)) (freshTemp : String)
    (now : Nat) (st : FixState) (key : String) :
    Except String (String × FixState) :=
  match jsGet m key with
  | none => .error (keyNotFoundMsg key m)
  | some file =>
    if file = "" then .error (keyNotFoundMsg key m)
    else
      let fixturePath := pathJoin ((jsGet dirs key).getD "") file
      match st.fs fixturePath with
      | none => .error ("Fixture file not found: " ++ fixturePath)
      | some bytes =>
        let tmp := st.tempDir.getD freshTemp
        let destPath := pathJoin tmp (key ++ "-" ++ decStr now ++ "-" ++ file)
        .ok (destPath,
             { fs := fun p => if p = destPath then some bytes else st.fs p,
               tempDir := some tmp })

/-- The destination path of a successful `getFixture` call, or `none`. -/
def fixturePathOf (r : Except String (String × FixState)) : Option String :=
  match r with
  | .ok (p, _) => some p
  | .error _ => none

/-- The state after a `getFixture` call: the updated state on success, the
unchanged state on failure. -/
def nextFixState (r : Except String (String × FixState)) (st : FixState) :
    FixState :=
  match r with
  | .ok (_, st') => st'
  | .error _ => st

/-!
Embedding of `lib/db.js` (`dropTestDb`).  The external world — the dynamic
`import` of the environment config, and the Mongo client's three awaited
steps — is an explicit environment; each step either succeeds or throws.
-/

/-- The environment `dropTestDb` runs against, resolved from the working
directory and `NODE_ENV`: the result of `import(configPath)` (an exception,
or a default export whose optional field is
`config['adapt-authoring-mongodb']?.connectionUri`), and for each of
`client.connect()`, `db().dropDatabase()`, `client.close()` the exception it
throws, if any. -/
structure DbEnv where
  configImport : Except String (Option String)
  connectErr : Option String
  dropErr : Option String
  closeErr : Option String

/-- What one run of `dropTestDb` produces: the value returned to the caller
(`Except` so that an uncaught exception would be visible as `.error`), and
whether `dropDatabase()` actually completed. -/
structure DbRun where
  result : Except String Bool
  dropped : Bool

/-- The `try` body of `dropTestDb`, before the surrounding `catch`:
its outcome paired with whether the database got dropped. -/
def dropTestDbBody (env : DbEnv) : Except String Bool × Bool :=
  match env.configImport with
  | .error e => (.error e, false)
  | .ok uri? =>
    match uri? with
    | none => (.ok false, false)
    | some _ =>
      match env.connectErr with
      | some e => (.error e, false)
      | none =>
        match env.dropErr with
        | some e => (.error e, false)
        | none =>
          match env.closeErr with
          | some e => (.error e, true)
          | none => (.ok true, true)

/-- Embedding of `dropTestDb(cwd)`: the `try` body wrapped in the `catch` that converts
any exception into a plain `false` return. -/
def dropTestDb (env : DbEnv) : DbRun :=
  match dropTestDbBody env with
  | (.ok b, d) => { result := .ok b, dropped := d }
  | (.error _, d) => { result := .ok false, dropped := d }

/-!
Embedding of `lib/app.js` (`getApp`) as an interleaving model.  A `getApp`
call runs two atomic slices of the Node event loop: from entry up to the
`await App.instance.onReady()` (the cache check, and the boot invocation on
a miss), and the continuation after the `await` resolves (store the handle
in the module-level `app`, return it).  `App.instance` is the framework's
singleton; `onReady()` resolves with that singleton, and each invocation of
it counts as one trigger of the external boot operation.
-/

/-- The model value of the `App.instance` singleton handle. -/
def appHandle : Nat := 0

/-- Shared state: the module-level `app` cache and the number of times
`App.instance.onReady()` has been invoked. -/
structure AppShared where
  app : Option Nat
  boots : Nat
deriving DecidableEq

/-- The control point of one `getApp` caller: not yet entered, suspended on
the `await`, or returned with a handle. -/
inductive CallState where
  | ready : CallState
  | booting : CallState
  | done : Nat → CallState
deriving DecidableEq

/-- One atomic slice of a `getApp` caller.  From `ready`: `if (app) return
app`, else invoke `App.instance.onReady()` (one boot trigger) and suspend.
From `booting`: the `await` resolves with the singleton; `app = ...; return
app`. -/
def stepCall (g : AppShared) : CallState → AppShared × CallState
  | .ready =>
    match g.app with
    | some a => (g, .done a)
    | none => ({ g with boots := g.boots + 1 }, .booting)
  | .booting => ({ g with app := some appHandle }, .done appHandle)
  | .done a => (g, .done a)

/-- A process with two concurrent `getApp` callers. -/
structure AppProc where
  shared : AppShared
  c0 : CallState
  c1 : CallState
deriving DecidableEq

/-- Run the slice of caller 0 (`false`) or caller 1 (`true`). -/
def stepProc (p : AppProc) (which : Bool) : AppProc :=
  match which with
  | false => let (g, t) := stepCall p.shared p.c0; { p with shared := g, c0 := t }
  | true => let (g, t) := stepCall p.shared p.c1; { p with shared := g, c1 := t }

/-- Run a schedule (an interleaving of the two callers' slices) from the
initial state: empty cache, no boots, both callers about to enter. -/
def runSched (s : List Bool) : AppProc :=
  s.foldl stepProc ⟨⟨none, 0⟩, .ready, .ready⟩

/-!
Embedding of the top level of `bin/run.js`.  The observable operations are
recorded in order as a trace of events; the file system and environment are
an explicit `OrchEnv`.  A spec file `<name>.spec.js` exists in the tests
directory exactly when that filename is in the directory listing.
-/

/-- The observable events of one orchestrator run, in program order. -/
inductive OrchEv where
  | readTestsDir : OrchEv
  | checkSpec : String → OrchEv
  | checkCustomTests : OrchEv
  | readCustomTestsDir : OrchEv
  | dropDb : OrchEv
  | writeEntry : List String → OrchEv
  | execTests : List String → OrchEv
deriving DecidableEq

/-- Events belonging to the resolution of the test selection (directory
scans and spec-file existence checks). -/
def isSelectionEv : OrchEv → Bool
  | .readTestsDir => true
  | .checkSpec _ => true
  | .checkCustomTests => true
  | .readCustomTestsDir => true
  | _ => false

/-- The environment of one orchestrator run: the listing of the primary
tests directory, `process.env.CUSTOM_DIR`, whether `CUSTOM_DIR/tests`
exists, and its listing. -/
structure OrchEnv where
  primaryFiles : List String
  customDir : Option String
  customTestsExists : Bool
  customFiles : List String

/-- How the run ends: `process.exit(code)` after the error message, or
normal completion. -/
inductive Outcome where
  | exited : Nat → String → Outcome
  | completed : Outcome
deriving DecidableEq

/-- The result of one orchestrator run: the event trace, the outcome, and
the collected `testFiles`. -/
structure OrchResult where
  trace : List OrchEv
  outcome : Outcome
  testFiles : List String
deriving DecidableEq

/-- Lexicographic comparison of character lists by code point, as JS string
comparison orders strings by code units. -/
def charListLe : List Char → List Char → Bool
  | [], _ => true
  | _ :: _, [] => false
  | a :: as, b :: bs =>
    if a.toNat = b.toNat then charListLe as bs else decide (a.toNat < b.toNat)

/-- JS `a <= b` on strings. -/
def strLe (a b : String) : Bool := charListLe a.data b.data

/-- The comparison `strLe` as a binary relation, for the sortedness statements. -/
def strLeRel (a b : String) : Prop := strLe a b = true

instance : DecidableRel strLeRel := fun a b => instDecidableEqBool (strLe a b) true

instance : IsTotal String strLeRel where
  total a b := by
    show charListLe a.data b.data = true ∨ charListLe b.data a.data = true
    generalize a.data = as
    generalize b.data = bs
    induction as generalizing bs with
    | nil => left; rfl
    | cons x xs ih =>
      cases bs with
      | nil => right; rfl
      | cons y ys =>
        by_cases h : x.toNat = y.toNat
        · simpa [charListLe, h] using ih ys
        · rcases Nat.lt_or_ge x.toNat y.toNat with hlt | hge
          · left; simp [charListLe, h, hlt]
          · right
            have hgt : y.toNat < x.toNat := by omega
            simp [charListLe, Ne.symm h, hgt]

instance : IsTrans String strLeRel where
  trans a b c hab hbc := by
    show charListLe a.data c.data = true
    rw [strLeRel, strLe] at hab hbc
    generalize ha : a.data = as at *
    generalize hb : b.data = bs at *
    generalize hc : c.data = cs at *
    clear ha hb hc
    revert hab hbc
    induction as generalizing bs cs with
    | nil => intro hab hbc; rfl
    | cons x xs ih =>
      intro hab hbc
      cases bs with
      | nil => exact absurd hab (by simp [charListLe])
      | cons y ys =>
        cases cs with
        | nil => exact absurd hbc (by simp [charListLe])
        | cons z zs =>
          simp only [charListLe] at hab hbc ⊢
          by_cases hxy : x.toNat = y.toNat <;> by_cases hyz : y.toNat = z.toNat
          · rw [if_pos (hxy.trans hyz)]
            rw [if_pos hxy] at hab
            rw [if_pos hyz] at hbc
            exact ih ys zs hab hbc
          · rw [if_pos hxy] at hab
            rw [if_neg hyz] at hbc
            rw [if_neg (hxy ▸ hyz), decide_eq_true_eq]
            simp only [decide_eq_true_eq] at hbc
            omega
          · rw [if_neg hxy, decide_eq_true_eq] at hab
            rw [if_pos hyz] at hbc
            rw [if_neg (fun h => hxy (hyz ▸ h)), decide_eq_true_eq]
            omega
          · rw [if_neg hxy, decide_eq_true_eq] at hab
            rw [if_neg hyz, decide_eq_true_eq] at hbc
            have hxz : x.toNat < z.toNat := Nat.lt_trans hab hbc
            rw [if_neg (Nat.ne_of_lt hxz), decide_eq_true_eq]
            exact hxz

/-- JS `s.endsWith(suffix)`. -/
def strEndsWith (s suffix : String) : Bool := suffix.data.isSuffixOf s.data

/-- Embedding of `files.filter(f => f.endsWith('.spec.js')).sort()`: the spec files of a
directory listing in lexicographic order. -/
def sortedSpecs (files : List String) : List String :=
  List.insertionSort strLeRel
    (files.filter (fun f => strEndsWith f (".spec.js")))

/-- The explicit-suite loop: for each name in order, check
`existsSync(testsDir/<name>.spec.js)`; on the first miss stop with that name
and expected path, else collect the path.  Returns the collected paths, the
existence-check events, and the first failure, if any. -/
def collectExplicit (testsDir : String) (listing : List String) :
    List String → List String × List OrchEv × Option (String × String)
  | [] => ([], [], none)
  | n :: ns =>
    let specFile := pathJoin testsDir (n ++ ".spec.js")
    if (n ++ ".spec.js") ∈ listing then
      let r := collectExplicit testsDir listing ns
      (specFile :: r.1, .checkSpec specFile :: r.2.1, r.2.2)
    else ([], [.checkSpec specFile], some (n, specFile))

/-- The `if (customDir)` block: returns the extra test files and events. -/
def customBlock (env : OrchEnv) : List String × List OrchEv :=
  match env.customDir with
  | none => ([], [])
  | some cd =>
    let customTestsDir := pathJoin cd ("tests")
    if env.customTestsExists then
      ((sortedSpecs env.customFiles).map (pathJoin customTestsDir),
       [.checkCustomTests, .readCustomTestsDir])
    else ([], [.checkCustomTests])

/-- The top level of `bin/run.js`: collect explicit or scanned test files,
append custom tests, drop the test database, write the generated entry file
and execute the aggregated test run.  A missing explicit suite name exits
with code 1 before anything else happens. -/
def runMain (root : String) (env : OrchEnv) (args : List String) : OrchResult :=
  let testsDir := pathJoin root ("tests")
  match args with
  | [] =>
    let files := (sortedSpecs env.primaryFiles).map (pathJoin testsDir)
    let extra := customBlock env
    let allFiles := files ++ extra.1
    { trace := .readTestsDir :: extra.2
        ++ [.dropDb, .writeEntry allFiles, .execTests allFiles],
      outcome := .completed,
      testFiles := allFiles }
  | _ :: _ =>
    let r := collectExplicit testsDir env.primaryFiles args
    match r.2.2 with
    | some nf =>
      { trace := r.2.1,
        outcome := .exited 1
          ("Test not found: " ++ nf.1 ++ " (expected " ++ nf.2 ++ ")"),
        testFiles := r.1 }
    | none =>
      let extra := customBlock env
      let allFiles := r.1 ++ extra.1
      { trace := r.2.1 ++ extra.2
          ++ [.dropDb, .writeEntry allFiles, .execTests allFiles],
        outcome := .completed,
        testFiles := allFiles }

theorem jsGet_jsSet (o : List (String × String)) (k₀ v₀ k : String) :
    jsGet (jsSet o k₀ v₀) k = if k₀ = k then some v₀ else jsGet o k := by
  induction o with
  | nil => simp [jsSet, jsGet]
  | cons e es ih =>
    by_cases h : e.1 = k₀
    · subst h
      by_cases hk : e.1 = k <;> simp [jsSet, jsGet, hk]
    · by_cases hk : e.1 = k
      · subst hk
        simp [jsSet, jsGet, h, Ne.symm h]
      · simp [jsSet, jsGet, h, hk, ih]

theorem jsGet_setAll (src : List (String × String)) (o : List (String × String))
    (k : String) :
    jsGet (setAll o src) k =
      match lastGet src k with
      | some v => some v
      | none => jsGet o k := by
  induction src generalizing o with
  | nil => simp [setAll, lastGet]
  | cons e es ih =>
    show jsGet (setAll (jsSet o e.1 e.2) es) k = _
    rw [ih]
    cases h : lastGet es k with
    | some v => simp [lastGet, h]
    | none =>
      simp only [lastGet, h, jsGet_jsSet]
      by_cases hk : e.1 = k <;> simp [hk]

theorem jsGet_setAllConst (src : List (String × String))
    (o : List (String × String)) (d k : String) :
    jsGet (setAllConst o src d) k =
      if k ∈ src.map Prod.fst then some d else jsGet o k := by
  induction src generalizing o with
  | nil => simp [setAllConst]
  | cons e es ih =>
    show jsGet (setAllConst (jsSet o e.1 d) es d) k = _
    rw [ih]
    by_cases hmem : k ∈ es.map Prod.fst
    · simp [hmem]
    · by_cases hk : e.1 = k
      · simp [hmem, hk, jsGet_jsSet]
      · simp [hmem, hk, jsGet_jsSet, Ne.symm hk]

theorem lastGet_of_not_mem {src : List (String × String)} {k : String}
    (h : k ∉ src.map Prod.fst) : lastGet src k = none := by
  induction src with
  | nil => rfl
  | cons e es ih =>
    simp only [List.map_cons, List.mem_cons, not_or] at h
    simp [lastGet, ih h.2, Ne.symm h.1]

theorem jsGet_of_not_mem {src : List (String × String)} {k : String}
    (h : k ∉ src.map Prod.fst) : jsGet src k = none := by
  induction src with
  | nil => rfl
  | cons e es ih =>
    simp only [List.map_cons, List.mem_cons, not_or] at h
    simp [jsGet, ih h.2, Ne.symm h.1]

theorem mem_of_jsGet_eq_some {src : List (String × String)} {k v : String}
    (h : jsGet src k = some v) : k ∈ src.map Prod.fst := by
  by_contra hmem
  rw [jsGet_of_not_mem hmem] at h
  exact Option.noConfusion h

theorem lastGet_eq_jsGet {src : List (String × String)}
    (hnd : (src.map Prod.fst).Nodup) (k : String) :
    lastGet src k = jsGet src k := by
  induction src with
  | nil => rfl
  | cons e es ih =>
    simp only [List.map_cons, List.nodup_cons] at hnd
    by_cases hk : e.1 = k
    · subst hk
      rw [lastGet, lastGet_of_not_mem hnd.1, jsGet]
      simp
    · rw [lastGet, ih hnd.2, jsGet, if_neg hk]
      cases jsGet es k <;> simp [hk]

theorem decCharsCore_eq (fuel : Nat) :
    ∀ n : Nat, n ≤ fuel →
      decCharsCore fuel n = (Nat.digits 10 n).reverse.map digitCh := by
  induction fuel with
  | zero =>
    intro n hn
    interval_cases n
    simp [decCharsCore]
  | succ fuel ih =>
    intro n hn
    cases n with
    | zero => simp [decCharsCore]
    | succ k =>
      have hdiv : (k + 1) / 10 ≤ fuel := by
        have := Nat.div_lt_self (Nat.succ_pos k) (by norm_num : 1 < 10)
        omega
      rw [decCharsCore, ih _ hdiv,
        Nat.digits_def' (by norm_num : 1 < 10) (Nat.succ_pos k)]
      simp

theorem digitCh_lt_inj : ∀ a, a < 10 → ∀ b, b < 10 → digitCh a = digitCh b → a = b := by
  decide

theorem map_digitCh_inj :
    ∀ {xs ys : List Nat}, (∀ x ∈ xs, x < 10) → (∀ y ∈ ys, y < 10) →
      xs.map digitCh = ys.map digitCh → xs = ys := by
  intro xs
  induction xs with
  | nil =>
    intro ys _ _ h
    cases ys with
    | nil => rfl
    | cons y ys => simp at h
  | cons x xs ih =>
    intro ys hx hy h
    cases ys with
    | nil => simp at h
    | cons y ys =>
      simp only [List.map_cons, List.cons.injEq] at h
      have hxy := digitCh_lt_inj x (hx x (by simp)) y (hy y (by simp)) h.1
      have htail := ih (fun a ha => hx a (by simp [ha]))
        (fun a ha => hy a (by simp [ha])) h.2
      simp [hxy, htail]

theorem decStr_ne_decStr_zero {n : Nat} (hn : n ≠ 0) : decStr n ≠ "0" := by
  intro h
  rw [decStr, if_neg hn, decCharsCore_eq n n le_rfl] at h
  have hd : (Nat.digits 10 n).reverse.map digitCh = ['0'] :=
    congrArg String.data h
  have hrev : (Nat.digits 10 n).reverse = [0] := by
    apply map_digitCh_inj
      (fun x hx => Nat.digits_lt_base (by norm_num) (List.mem_reverse.mp hx))
      (by simp)
    simpa [digitCh] using hd
  have hdig : Nat.digits 10 n = [0] := by
    have := congrArg List.reverse hrev
    simpa using this
  apply hn
  have h0 := Nat.ofDigits_digits 10 n
  rw [hdig] at h0
  simpa [Nat.ofDigits] using h0.symm

theorem decStr_inj {m n : Nat} (h : decStr m = decStr n) : m = n := by
  by_cases hm : m = 0 <;> by_cases hn : n = 0
  · exact hm.trans hn.symm
  · exfalso
    apply decStr_ne_decStr_zero hn
    rw [← h, decStr, if_pos hm]
  · exfalso
    apply decStr_ne_decStr_zero hm
    rw [h, decStr, if_pos hn]
  · rw [decStr, if_neg hm, decStr, if_neg hn,
      decCharsCore_eq m m le_rfl, decCharsCore_eq n n le_rfl] at h
    have hd := congrArg String.data h
    have hmap : (Nat.digits 10 m).reverse.map digitCh
        = (Nat.digits 10 n).reverse.map digitCh := hd
    have hrev := map_digitCh_inj
      (fun x hx => Nat.digits_lt_base (by norm_num) (List.mem_reverse.mp hx))
      (fun x hx => Nat.digits_lt_base (by norm_num) (List.mem_reverse.mp hx))
      hmap
    have hdig : Nat.digits 10 m = Nat.digits 10 n := by
      have := congrArg List.reverse hrev
      simpa using this
    exact Nat.digits_inj_iff.mp hdig

theorem pathJoin_token_inj (tmp key file : String) {t1 t2 : Nat}
    (h : pathJoin tmp (key ++ "-" ++ decStr t1 ++ "-" ++ file)
       = pathJoin tmp (key ++ "-" ++ decStr t2 ++ "-" ++ file)) : t1 = t2 := by
  have hd := congrArg String.data h
  simp only [pathJoin, String.data_append, List.append_assoc] at hd
  have h1 := List.append_cancel_left hd
  have h2 := List.append_cancel_left h1
  have h3 := List.append_cancel_left h2
  have h4 := List.append_cancel_left h3
  rw [← List.append_assoc, ← List.append_assoc] at h4
  have h5 := List.append_cancel_right h4
  have h6 := List.append_cancel_right h5
  exact decStr_inj (String.ext h6)

theorem jsGet_ne_none_of_mem {src : List (String × String)} {k : String}
    (h : k ∈ src.map Prod.fst) : jsGet src k ≠ none := by
  induction src with
  | nil => cases h
  | cons e es ih =>
    by_cases hk : e.1 = k
    · simp [jsGet, hk]
    · rcases List.mem_cons.mp h with he | hmem
      · exact absurd he.symm hk
      · simp only [jsGet, if_neg hk]
        exact ih hmem

theorem jsGet_setAll_of_nodup {es : List (String × String)}
    (hnd : (es.map Prod.fst).Nodup) (k : String) :
    jsGet (setAll [] es) k = jsGet es k := by
  rw [jsGet_setAll, lastGet_eq_jsGet hnd]
  cases h : jsGet es k <;> simp [jsGet]

/-- Claim C2: merging a primary manifest with an override manifest in
`getManifest` yields their key-wise union: a key present in the override
manifest always gets the override value (and is attributed to the custom
fixtures directory), a key absent from the override manifest keeps the
primary manifest's value (attributed to the built-in fixtures directory);
for disjoint key sets this is exactly the union of the two mappings. -/
theorem c2_getManifest_merge (fixturesDir c : String)
    (es1 es2 : List (String × String)) (r : ManifestResult)
    (hnd1 : (es1.map Prod.fst).Nodup) (hnd2 : (es2.map Prod.fst).Nodup)
    (hr : getManifest fixturesDir (some c) (.parsed es1) (.parsed es2)
        = .ok r) :
    (∀ k v, jsGet es2 k = some v → jsGet r.manifest k = some v)
    ∧ (∀ k, jsGet es2 k = none → jsGet r.manifest k = jsGet es1 k)
    ∧ (∀ k v, jsGet es2 k = some v →
        jsGet r.resolvedDirs k = some (pathJoin c ("fixtures")))
    ∧ (∀ k v, jsGet es2 k = none → jsGet es1 k = some v →
        jsGet r.resolvedDirs k = some fixturesDir) := by
  have hr' : r = ⟨setAll (setAll [] es1) es2,
      setAllConst (setAllConst [] es1 fixturesDir) es2 (pathJoin c ("fixtures"))⟩ := by
    simpa [getManifest, readManifest] using hr.symm
  subst hr'
  refine ⟨?_, ?_, ?_, ?_⟩
  · intro k v h2
    show jsGet (setAll (setAll [] es1) es2) k = some v
    rw [jsGet_setAll, lastGet_eq_jsGet hnd2, h2]
  · intro k h2
    show jsGet (setAll (setAll [] es1) es2) k = jsGet es1 k
    rw [jsGet_setAll, lastGet_eq_jsGet hnd2, h2, jsGet_setAll_of_nodup hnd1]
  · intro k v h2
    show jsGet (setAllConst (setAllConst [] es1 fixturesDir) es2
      (pathJoin c ("fixtures"))) k = some (pathJoin c ("fixtures"))
    rw [jsGet_setAllConst, if_pos (mem_of_jsGet_eq_some h2)]
  · intro k v h2 h1
    show jsGet (setAllConst (setAllConst [] es1 fixturesDir) es2
      (pathJoin c ("fixtures"))) k = some fixturesDir
    have hnot : k ∉ es2.map Prod.fst := fun hmem =>
      jsGet_ne_none_of_mem hmem h2
    rw [jsGet_setAllConst, if_neg hnot, jsGet_setAllConst,
      if_pos (mem_of_jsGet_eq_some h1)]

/-- Witness for C2 at a concrete pair of manifests: primary
`a ↦ a1, b ↦ b1`, override `b ↦ b2, c ↦ c2`. -/
theorem c2_getManifest_merge_witness :
    jsGet (ManifestResult.manifest
        ⟨[("a", "a1"), ("b", "b2"), ("c", "c2")],
         [("a", "FD"), ("b", "CD/fixtures"), ("c", "CD/fixtures")]⟩) "b"
      = some "b2"
    ∧ jsGet (ManifestResult.manifest
        ⟨[("a", "a1"), ("b", "b2"), ("c", "c2")],
         [("a", "FD"), ("b", "CD/fixtures"), ("c", "CD/fixtures")]⟩) "a"
      = jsGet [("a", "a1"), ("b", "b1")] "a"
    ∧ jsGet (ManifestResult.resolvedDirs
        ⟨[("a", "a1"), ("b", "b2"), ("c", "c2")],
         [("a", "FD"), ("b", "CD/fixtures"), ("c", "CD/fixtures")]⟩) "a"
      = some "FD" := by
  have h := c2_getManifest_merge "FD" "CD" [("a", "a1"), ("b", "b1")]
    [("b", "b2"), ("c", "c2")]
    ⟨[("a", "a1"), ("b", "b2"), ("c", "c2")],
     [("a", "FD"), ("b", "CD/fixtures"), ("c", "CD/fixtures")]⟩
    (by decide) (by decide) (by rfl)
  exact ⟨h.1 "b" "b2" (by decide), h.2.1 "a" (by decide),
    h.2.2.2 "a" "a1" (by decide) (by decide)⟩

theorem infix_joinComma {ks : List String} {k : String} (h : k ∈ ks) :
    k.data <:+: (joinComma ks).data := by
  induction ks with
  | nil => cases h
  | cons s ss ih =>
    cases ss with
    | nil =>
      have : k = s := List.mem_singleton.mp h
      subst this
      exact List.infix_refl _
    | cons s2 ss2 =>
      rcases List.mem_cons.mp h with rfl | hmem
      · show k.data <:+: (k ++ ", " ++ joinComma (s2 :: ss2)).data
        simp only [String.data_append, List.append_assoc]
        exact (List.prefix_append _ _).isInfix
      · have h1 := ih hmem
        show k.data <:+: (s ++ ", " ++ joinComma (s2 :: ss2)).data
        simp only [String.data_append]
        refine h1.trans ?_
        exact (List.suffix_append _ _).isInfix

theorem infix_keyNotFoundMsg {m : List (String × String)} {key k : String}
    (h : k ∈ jsKeys m) : k.data <:+: (keyNotFoundMsg key m).data := by
  refine (infix_joinComma h).trans ?_
  simp only [keyNotFoundMsg, String.data_append, ← List.append_assoc]
  exact (List.suffix_append _ _).isInfix

/-- Claim C7: `getFixture` on a key absent from the merged manifest fails
with the key-not-found error, whose message lists every valid key of the
merged manifest (each key occurs in the message text). -/
theorem c7_getFixture_absent_key (m dirs : List (String × String))
    (freshTemp : String) (now : Nat) (st : FixState) (key : String)
    (h : jsGet m key = none) :
    getFixture m dirs freshTemp now st key = .error (keyNotFoundMsg key m)
    ∧ ∀ k ∈ jsKeys m, k.data <:+: (keyNotFoundMsg key m).data := by
  constructor
  · simp [getFixture, h]
  · intro k hk
    exact infix_keyNotFoundMsg hk

/-- Witness for C7: a concrete one-entry manifest and an absent key. -/
theorem c7_getFixture_absent_key_witness :
    getFixture [("course-export", "file.zip")] [] "T" 0
        ⟨fun _ => none, none⟩ "nope"
      = .error (keyNotFoundMsg "nope" [("course-export", "file.zip")])
    ∧ ("course-export" : String).data
        <:+: (keyNotFoundMsg "nope" [("course-export", "file.zip")]).data := by
  have h := c7_getFixture_absent_key [("course-export", "file.zip")] [] "T" 0
    ⟨fun _ => none, none⟩ "nope" (by decide)
  exact ⟨h.1, h.2 "course-export" (by decide)⟩

/-- Claim C9: a key that is present in the merged manifest but mapped to a
falsy value (the empty-string filename) makes `getFixture` throw the very
same key-not-found error as an absent key, because the code tests
`!m[key]` (truthiness of the value) rather than key membership. -/
theorem c9_getFixture_falsy_value (m dirs : List (String × String))
    (freshTemp : String) (now : Nat) (st : FixState) (key : String)
    (h : jsGet m key = some "") :
    getFixture m dirs freshTemp now st key = .error (keyNotFoundMsg key m) := by
  simp [getFixture, h]

/-- Witness for C9: the key `k` is present but maps to `""`. -/
theorem c9_getFixture_falsy_value_witness :
    getFixture [("k", "")] [("k", "/fx")] "T" 0 ⟨fun _ => none, none⟩ "k"
      = .error (keyNotFoundMsg "k" [("k", "")]) :=
  c9_getFixture_falsy_value [("k", "")] [("k", "/fx")] "T" 0
    ⟨fun _ => none, none⟩ "k" (by decide)

/-- Claim C10: only `ENOENT` is soft-treated by `readManifest` (returning
`null`); a manifest that exists but is unreadable or malformed makes
`readManifest` rethrow, and `getManifest` propagates that error unchanged
instead of treating the manifest as absent or raising the
configuration-missing error (which is reserved for the case where both
manifests are truly absent). -/
theorem c10_readManifest_strict (fixturesDir : String)
    (customEnv : Option String) (customRead : ReadOutcome) (e c : String)
    (es : List (String × String)) :
    readManifest .missing = .ok none
    ∧ readManifest (.readErr e) = .error e
    ∧ readManifest (.parseErr e) = .error e
    ∧ getManifest fixturesDir customEnv (.readErr e) customRead = .error e
    ∧ getManifest fixturesDir customEnv (.parseErr e) customRead = .error e
    ∧ getManifest fixturesDir (some c) (.parsed es) (.parseErr e) = .error e
    ∧ getManifest fixturesDir (some c) .missing (.readErr e) = .error e
    ∧ getManifest fixturesDir none .missing customRead
        = .error (noManifestMsg fixturesDir) :=
  ⟨rfl, rfl, rfl, rfl, rfl, rfl, rfl, rfl⟩

/-- Claim C6: `dropTestDb` never throws for any environment: its result is
always a plain boolean.  It returns `false` when the config import fails
(file absent), when the connection string is absent, or when any of the
connect/drop/close steps raises; and it returns `true` only when
`dropDatabase()` actually completed. -/
theorem c6_dropTestDb_total (env : DbEnv) :
    (∃ b, (dropTestDb env).result = .ok b)
    ∧ ((dropTestDb env).result = .ok true → (dropTestDb env).dropped = true)
    ∧ (∀ e, env.configImport = .error e →
        (dropTestDb env).result = .ok false)
    ∧ (env.configImport = .ok none → (dropTestDb env).result = .ok false)
    ∧ (∀ e, env.connectErr = some e → (dropTestDb env).result = .ok false)
    ∧ (∀ e, env.dropErr = some e → (dropTestDb env).result = .ok false)
    ∧ (∀ e, env.closeErr = some e → (dropTestDb env).result = .ok false) := by
  obtain ⟨ci, ce, de, cle⟩ := env
  cases ci with
  | error e => simp [dropTestDb, dropTestDbBody]
  | ok uri? =>
    cases uri? with
    | none => simp [dropTestDb, dropTestDbBody]
    | some uri =>
      cases ce with
      | some e => simp [dropTestDb, dropTestDbBody]
      | none =>
        cases de with
        | some e => simp [dropTestDb, dropTestDbBody]
        | none =>
          cases cle with
          | some e => simp [dropTestDb, dropTestDbBody]
          | none => simp [dropTestDb, dropTestDbBody]

/-- Witness for C6: a missing config file yields `false` without throwing;
a fully successful sequence yields `true` and the database was dropped. -/
theorem c6_dropTestDb_total_witness :
    (dropTestDb ⟨.error "ENOENT", none, none, none⟩).result = .ok false
    ∧ (dropTestDb ⟨.ok (some "mongodb://0.0.0.0/test"), none, none, none⟩).result
        = .ok true
    ∧ (dropTestDb ⟨.ok (some "mongodb://0.0.0.0/test"), none, none, none⟩).dropped
        = true := by
  refine ⟨(c6_dropTestDb_total ⟨.error "ENOENT", none, none, none⟩).2.2.1
      "ENOENT" rfl, rfl,
    (c6_dropTestDb_total
      ⟨.ok (some "mongodb://0.0.0.0/test"), none, none, none⟩).2.1 rfl⟩

/-- Claim C3 counterexample: two `getFixture("k")` calls that observe the
same `Date.now()` value (5, i.e. both within the same millisecond) return
the SAME destination path, refuting "any two calls to getFixture(key)
return two distinct destination paths". -/
theorem c3_counterexample :
    fixturePathOf (getFixture [("k", "f.zip")] [("k", "/fx")] "/tmp/aat" 5
        ⟨fun p => if p = "/fx/f.zip" then some [1, 2, 3] else none, none⟩ "k")
      = some "/tmp/aat/k-5-f.zip"
    ∧ fixturePathOf (getFixture [("k", "f.zip")] [("k", "/fx")] "/tmp/aat" 5
        (nextFixState
          (getFixture [("k", "f.zip")] [("k", "/fx")] "/tmp/aat" 5
            ⟨fun p => if p = "/fx/f.zip" then some [1, 2, 3] else none, none⟩
            "k")
          ⟨fun p => if p = "/fx/f.zip" then some [1, 2, 3] else none, none⟩)
        "k")
      = some "/tmp/aat/k-5-f.zip" :=
  ⟨rfl, rfl⟩

theorem pathJoin_src_ne_dest (a b key file : String) (t : Nat) :
    pathJoin a file ≠ pathJoin b (key ++ "-" ++ decStr t ++ "-" ++ file) := by
  intro h
  have hd := congrArg String.data h
  simp only [pathJoin, String.data_append, ← List.append_assoc] at hd
  have h2 := List.append_cancel_right hd
  have hl := congrArg List.getLast? h2
  rw [List.getLast?_concat, List.getLast?_concat] at hl
  exact absurd hl (by decide)

/-- Claim C3 (amended): two successive `getFixture(key)` calls return two
distinct destination paths provided they observe distinct `Date.now()`
values (the token is only monotone, not strictly increasing, so calls in
the same millisecond can collide — see the counterexample); and the source
fixture file's bytes are unchanged after both calls.  The bytes part holds
unconditionally in this embedding: a destination path's segment before the
filename ends in a dash while the source path's ends in the separator, so
a copy can never overwrite the source. -/
theorem c3_getFixture_distinct (m dirs : List (String × String))
    (freshTemp : String) (t1 t2 : Nat) (st0 st1 st2 : FixState)
    (key file p1 p2 : String)
    (hkey : jsGet m key = some file) (hfile : file ≠ "")
    (h1 : getFixture m dirs freshTemp t1 st0 key = .ok (p1, st1))
    (h2 : getFixture m dirs freshTemp t2 st1 key = .ok (p2, st2))
    (hne : t1 ≠ t2) :
    p1 ≠ p2
    ∧ st2.fs (pathJoin ((jsGet dirs key).getD "") file)
        = st0.fs (pathJoin ((jsGet dirs key).getD "") file) := by
  simp only [getFixture, hkey, if_neg hfile] at h1
  cases hb1 : st0.fs (pathJoin ((jsGet dirs key).getD "") file) with
  | none => rw [hb1] at h1; exact absurd h1 (by simp)
  | some bytes =>
    rw [hb1] at h1
    rw [Except.ok.injEq, Prod.mk.injEq] at h1
    obtain ⟨hp1, hst1⟩ := h1
    have hsrc1 : pathJoin ((jsGet dirs key).getD "") file
        ≠ pathJoin (st0.tempDir.getD freshTemp)
          (key ++ "-" ++ decStr t1 ++ "-" ++ file) :=
      pathJoin_src_ne_dest _ _ _ _ _
    have hsrc2 : pathJoin ((jsGet dirs key).getD "") file
        ≠ pathJoin (st0.tempDir.getD freshTemp)
          (key ++ "-" ++ decStr t2 ++ "-" ++ file) :=
      pathJoin_src_ne_dest _ _ _ _ _
    simp only [getFixture, hkey, if_neg hfile] at h2
    rw [← hst1] at h2
    simp only [Option.getD_some, if_neg hsrc1] at h2
    rw [hb1] at h2
    rw [Except.ok.injEq, Prod.mk.injEq] at h2
    obtain ⟨hp2, hst2⟩ := h2
    constructor
    · rw [← hp1, ← hp2]
      intro he
      exact hne (pathJoin_token_inj _ _ _ he)
    · rw [← hst2]
      simp only [Option.getD_some, if_neg hsrc2, if_neg hsrc1]
      exact hb1

/-- Witness for the amended C3: timestamps 5 and 6 give the two distinct
paths `/tmp/aat/k-5-f.zip` and `/tmp/aat/k-6-f.zip`, and the source file at
`/fx/f.zip` still holds its original bytes afterwards. -/
theorem c3_getFixture_distinct_witness :
    ("/tmp/aat/k-5-f.zip" : String) ≠ "/tmp/aat/k-6-f.zip"
    ∧ FixState.fs
        ⟨fun p => if p = "/tmp/aat/k-6-f.zip" then some [1, 2, 3]
            else if p = "/tmp/aat/k-5-f.zip" then some [1, 2, 3]
            else if p = "/fx/f.zip" then some [1, 2, 3] else none,
          some "/tmp/aat"⟩
        (pathJoin ((jsGet [("k", "/fx")] "k").getD "") "f.zip")
      = FixState.fs
          ⟨fun p => if p = "/fx/f.zip" then some [1, 2, 3] else none, none⟩
          (pathJoin ((jsGet [("k", "/fx")] "k").getD "") "f.zip") :=
  c3_getFixture_distinct [("k", "f.zip")] [("k", "/fx")] "/tmp/aat" 5 6
    ⟨fun p => if p = "/fx/f.zip" then some [1, 2, 3] else none, none⟩
    ⟨fun p => if p = "/tmp/aat/k-5-f.zip" then some [1, 2, 3]
        else if p = "/fx/f.zip" then some [1, 2, 3] else none,
      some "/tmp/aat"⟩
    ⟨fun p => if p = "/tmp/aat/k-6-f.zip" then some [1, 2, 3]
        else if p = "/tmp/aat/k-5-f.zip" then some [1, 2, 3]
        else if p = "/fx/f.zip" then some [1, 2, 3] else none,
      some "/tmp/aat"⟩
    "k" "f.zip" "/tmp/aat/k-5-f.zip" "/tmp/aat/k-6-f.zip"
    (by decide) (by decide) rfl rfl (by decide)

theorem runSched_snoc (s : List Bool) (b : Bool) :
    runSched (s ++ [b]) = stepProc (runSched s) b := by
  simp [runSched, List.foldl_append]

theorem stepProc_inv (p : AppProc) (b : Bool)
    (hc : p.shared.app = none ∨ p.shared.app = some appHandle)
    (h0 : ∀ a, p.c0 = CallState.done a → a = appHandle)
    (h1 : ∀ a, p.c1 = CallState.done a → a = appHandle) :
    ((stepProc p b).shared.app = none
      ∨ (stepProc p b).shared.app = some appHandle)
    ∧ (∀ a, (stepProc p b).c0 = CallState.done a → a = appHandle)
    ∧ (∀ a, (stepProc p b).c1 = CallState.done a → a = appHandle) := by
  obtain ⟨⟨app, boots⟩, c0, c1⟩ := p
  cases b <;> cases c0 <;> cases c1 <;> rcases app with _ | a <;>
    simp_all [stepProc, stepCall]

theorem runSched_inv (s : List Bool) :
    ((runSched s).shared.app = none
      ∨ (runSched s).shared.app = some appHandle)
    ∧ (∀ a, (runSched s).c0 = CallState.done a → a = appHandle)
    ∧ (∀ a, (runSched s).c1 = CallState.done a → a = appHandle) := by
  induction s using List.reverseRecOn with
  | nil =>
    refine ⟨Or.inl rfl, ?_, ?_⟩ <;> intro a h <;> simp [runSched] at h
  | append_singleton s b ih =>
    rw [runSched_snoc]
    exact stepProc_inv (runSched s) b ih.1 ih.2.1 ih.2.2

/-- Claim C1 counterexample: under the interleaving in which both `getApp`
callers run their entry slice before either boot completes (schedule
caller 0, caller 1, caller 0, caller 1), the external boot operation
`App.instance.onReady()` is invoked TWICE — the code memoizes only the
resulting handle (`app = await App.instance.onReady()`), not the pending
operation — refuting "the external boot operation is triggered at most
once ... the pending boot operation itself is memoized". -/
theorem c1_counterexample :
    (runSched [false, true, false, true]).shared.boots = 2
    ∧ (runSched [false, true, false, true]).c0 = CallState.done appHandle
    ∧ (runSched [false, true, false, true]).c1 = CallState.done appHandle := by
  decide

/-- Claim C1 (amended): in every interleaving, any two completed `getApp`
calls return the reference-identical singleton handle; and a call whose
entry slice runs after the cache is populated returns the cached handle
without triggering another boot.  (But two calls interleaved before the
first boot completes each trigger the boot, because only the resulting
handle is cached, not the pending operation — see the counterexample.) -/
theorem c1_getApp_memo (s : List Bool) :
    (∀ a b, (runSched s).c0 = CallState.done a →
      (runSched s).c1 = CallState.done b → a = b)
    ∧ (∀ a, (runSched s).shared.app = some a →
        (runSched s).c1 = CallState.ready →
        (runSched (s ++ [true])).c1 = CallState.done a
        ∧ (runSched (s ++ [true])).shared.boots
            = (runSched s).shared.boots) := by
  constructor
  · intro a b ha hb
    rw [(runSched_inv s).2.1 a ha, (runSched_inv s).2.2 b hb]
  · intro a hcache hready
    rw [runSched_snoc]
    constructor <;> simp [stepProc, stepCall, hready, hcache]

/-- Witness for the amended C1: after the first caller completes alone
(schedule `[false, false]`), the cache holds the singleton, and the second
caller's entry slice returns it with the boot count unchanged; and on the
fully sequential schedule both callers return the identical handle. -/
theorem c1_getApp_memo_witness :
    (appHandle = appHandle)
    ∧ (runSched ([false, false] ++ [true])).c1 = CallState.done appHandle
    ∧ (runSched ([false, false] ++ [true])).shared.boots
        = (runSched [false, false]).shared.boots := by
  have h2 := (c1_getApp_memo [false, false]).2 appHandle (by decide) (by decide)
  have h1 := (c1_getApp_memo [false, false, true, true]).1 appHandle appHandle
    (by decide) (by decide)
  exact ⟨h1, h2.1, h2.2⟩

theorem collectExplicit_events (testsDir : String) (listing : List String) :
    ∀ args, ∀ e ∈ (collectExplicit testsDir listing args).2.1,
      ∃ p, e = OrchEv.checkSpec p := by
  intro args
  induction args with
  | nil => intro e he; simp [collectExplicit] at he
  | cons n ns ih =>
    intro e he
    by_cases h : (n ++ ".spec.js") ∈ listing
    · simp only [collectExplicit, if_pos h] at he
      rcases List.mem_cons.mp he with rfl | hmem
      · exact ⟨_, rfl⟩
      · exact ih e hmem
    · simp only [collectExplicit, if_neg h] at he
      rcases List.mem_singleton.mp he with rfl
      exact ⟨_, rfl⟩

theorem collectExplicit_fail (testsDir : String) (listing : List String) :
    ∀ args, (∃ n ∈ args, (n ++ ".spec.js") ∉ listing) →
      ∃ n₀, n₀ ∈ args ∧ (n₀ ++ ".spec.js") ∉ listing
        ∧ (collectExplicit testsDir listing args).2.2
            = some (n₀, pathJoin testsDir (n₀ ++ ".spec.js")) := by
  intro args
  induction args with
  | nil =>
    rintro ⟨n, hn, _⟩
    cases hn
  | cons n ns ih =>
    rintro ⟨n', hn', hmiss⟩
    by_cases h : (n ++ ".spec.js") ∈ listing
    · have hex : ∃ m ∈ ns, (m ++ ".spec.js") ∉ listing := by
        rcases List.mem_cons.mp hn' with rfl | hmem
        · exact absurd h hmiss
        · exact ⟨n', hmem, hmiss⟩
      obtain ⟨n₀, hmem, hm, hcol⟩ := ih hex
      exact ⟨n₀, by simp [hmem], hm,
        by simp [collectExplicit, if_pos h, hcol]⟩
    · exact ⟨n, by simp, h, by simp [collectExplicit, if_neg h]⟩

theorem customBlock_events (env : OrchEnv) :
    ∀ e ∈ (customBlock env).2, isSelectionEv e = true := by
  intro e he
  rcases henv : env.customDir with _ | cd
  · simp [customBlock, henv] at he
  · by_cases hex : env.customTestsExists
    · simp only [customBlock, henv, if_pos hex] at he
      rcases List.mem_cons.mp he with rfl | hmem
      · rfl
      · rcases List.mem_singleton.mp hmem with rfl
        rfl
    · simp only [customBlock, henv, if_neg hex] at he
      rcases List.mem_singleton.mp he with rfl
      rfl

/-- Claim C4: invoking the orchestrator with an explicit suite name whose
spec file does not exist under the primary tests directory exits with code
1 and a message naming the expected path; the trace contains no database
pre-drop, no entry-file write and no test execution. -/
theorem c4_missing_suite_aborts (root : String) (env : OrchEnv)
    (args : List String)
    (h : ∃ n ∈ args, (n ++ ".spec.js") ∉ env.primaryFiles) :
    ∃ n₀, n₀ ∈ args ∧ (n₀ ++ ".spec.js") ∉ env.primaryFiles
      ∧ (runMain root env args).outcome
          = .exited 1 ("Test not found: " ++ n₀ ++ " (expected "
              ++ pathJoin (pathJoin root ("tests")) (n₀ ++ ".spec.js") ++ ")")
      ∧ OrchEv.dropDb ∉ (runMain root env args).trace
      ∧ (∀ fs, OrchEv.execTests fs ∉ (runMain root env args).trace)
      ∧ (∀ fs, OrchEv.writeEntry fs ∉ (runMain root env args).trace) := by
  obtain ⟨n₀, hmem, hmiss, hcol⟩ :=
    collectExplicit_fail (pathJoin root ("tests")) env.primaryFiles args h
  cases args with
  | nil => cases hmem
  | cons n ns =>
    have htr : (runMain root env (n :: ns)).trace
        = (collectExplicit (pathJoin root ("tests"))
            env.primaryFiles (n :: ns)).2.1 := by
      simp [runMain, hcol]
    refine ⟨n₀, hmem, hmiss, ?_, ?_, ?_, ?_⟩
    · simp [runMain, hcol]
    · intro hin
      rw [htr] at hin
      obtain ⟨p, hp⟩ := collectExplicit_events _ _ (n :: ns) _ hin
      exact OrchEv.noConfusion hp
    · intro fs hin
      rw [htr] at hin
      obtain ⟨p, hp⟩ := collectExplicit_events _ _ (n :: ns) _ hin
      exact OrchEv.noConfusion hp
    · intro fs hin
      rw [htr] at hin
      obtain ⟨p, hp⟩ := collectExplicit_events _ _ (n :: ns) _ hin
      exact OrchEv.noConfusion hp

/-- Witness for C4: suite name `mongodb` with only `auth.spec.js` present. -/
theorem c4_missing_suite_aborts_witness :
    ∃ n₀, n₀ ∈ ["mongodb"]
      ∧ (n₀ ++ ".spec.js") ∉ (["auth.spec.js"] : List String)
      ∧ (runMain "R" ⟨["auth.spec.js"], none, false, []⟩ ["mongodb"]).outcome
          = .exited 1 ("Test not found: " ++ n₀ ++ " (expected "
              ++ pathJoin (pathJoin "R" ("tests")) (n₀ ++ ".spec.js") ++ ")")
      ∧ OrchEv.dropDb
          ∉ (runMain "R" ⟨["auth.spec.js"], none, false, []⟩ ["mongodb"]).trace
      ∧ (∀ fs, OrchEv.execTests fs
          ∉ (runMain "R" ⟨["auth.spec.js"], none, false, []⟩ ["mongodb"]).trace)
      ∧ (∀ fs, OrchEv.writeEntry fs
          ∉ (runMain "R" ⟨["auth.spec.js"], none, false, []⟩ ["mongodb"]).trace) :=
  c4_missing_suite_aborts "R" ⟨["auth.spec.js"], none, false, []⟩ ["mongodb"]
    ⟨"mongodb", by decide, by decide⟩

/-- Claim C5 counterexample: on a concrete default invocation the very
first event is the primary tests directory scan (test selection), the
database pre-drop comes only after the selection is resolved — refuting
"the DB Reset Helper is triggered first, before the test selection is
resolved". -/
theorem c5_counterexample :
    runMain "R" ⟨["auth.spec.js"], none, false, []⟩ []
      = ⟨[.readTestsDir, .dropDb, .writeEntry ["R/tests/auth.spec.js"],
          .execTests ["R/tests/auth.spec.js"]],
         .completed, ["R/tests/auth.spec.js"]⟩ := by
  decide

/-- Claim C5 (amended): in every completing orchestrator run the test
selection is resolved FIRST; the database pre-drop runs after the whole
selection and before the aggregated unit is written and executed. -/
theorem c5_selection_before_drop (root : String) (env : OrchEnv)
    (args : List String)
    (h : (runMain root env args).outcome = .completed) :
    ∃ sel, (runMain root env args).trace
        = sel ++ [OrchEv.dropDb,
            OrchEv.writeEntry (runMain root env args).testFiles,
            OrchEv.execTests (runMain root env args).testFiles]
      ∧ ∀ e ∈ sel, isSelectionEv e = true := by
  cases args with
  | nil =>
    refine ⟨OrchEv.readTestsDir :: (customBlock env).2, ?_, ?_⟩
    · simp [runMain]
    · intro e he
      rcases List.mem_cons.mp he with rfl | hmem
      · rfl
      · exact customBlock_events env e hmem
  | cons n ns =>
    cases hcol : (collectExplicit (pathJoin root ("tests"))
        env.primaryFiles (n :: ns)).2.2 with
    | some nf =>
      exfalso
      rw [runMain] at h
      simp only [hcol] at h
      exact Outcome.noConfusion h
    | none =>
      refine ⟨(collectExplicit (pathJoin root ("tests"))
          env.primaryFiles (n :: ns)).2.1 ++ (customBlock env).2, ?_, ?_⟩
      · simp [runMain, hcol]
      · intro e he
        rcases List.mem_append.mp he with hmem | hmem
        · obtain ⟨p, hp⟩ := collectExplicit_events _ _ (n :: ns) _ hmem
          rw [hp]
          rfl
        · exact customBlock_events env e hmem

/-- Witness for the amended C5 on a concrete default invocation. -/
theorem c5_selection_before_drop_witness :
    ∃ sel, (runMain "R" ⟨["auth.spec.js"], none, false, []⟩ []).trace
        = sel ++ [OrchEv.dropDb,
            OrchEv.writeEntry
              (runMain "R" ⟨["auth.spec.js"], none, false, []⟩ []).testFiles,
            OrchEv.execTests
              (runMain "R" ⟨["auth.spec.js"], none, false, []⟩ []).testFiles]
      ∧ ∀ e ∈ sel, isSelectionEv e = true :=
  c5_selection_before_drop "R" ⟨["auth.spec.js"], none, false, []⟩ []
    (by decide)

/-- Claim C8: a default invocation (no explicit suites) selects the primary
directory's spec files sorted lexicographically, followed by the override
directory's spec files, also sorted, appended after them. -/
theorem c8_default_selection (root : String) (env : OrchEnv) (cd : String)
    (hc : env.customDir = some cd) (hex : env.customTestsExists = true) :
    (runMain root env []).testFiles
      = (sortedSpecs env.primaryFiles).map (pathJoin (pathJoin root ("tests")))
        ++ (sortedSpecs env.customFiles).map (pathJoin (pathJoin cd ("tests")))
    ∧ List.Pairwise strLeRel (sortedSpecs env.primaryFiles)
    ∧ List.Pairwise strLeRel (sortedSpecs env.customFiles)
    ∧ List.Perm (sortedSpecs env.primaryFiles)
        (env.primaryFiles.filter (fun f => strEndsWith f (".spec.js")))
    ∧ List.Perm (sortedSpecs env.customFiles)
        (env.customFiles.filter (fun f => strEndsWith f (".spec.js"))) := by
  refine ⟨?_, ?_, ?_, ?_, ?_⟩
  · simp [runMain, customBlock, hc, hex]
  · exact List.sorted_insertionSort strLeRel _
  · exact List.sorted_insertionSort strLeRel _
  · exact List.perm_insertionSort strLeRel _
  · exact List.perm_insertionSort strLeRel _

/-- Witness for C8: primary suites `a, b, c` (listed unsorted, with a
non-spec file ignored) and override suite `d` yield exactly
`[a, b, c, d]` in that order. -/
theorem c8_default_selection_witness :
    (runMain "R" ⟨["b.spec.js", "a.spec.js", "c.spec.js", "notes.txt"],
        some "C", true, ["d.spec.js"]⟩ []).testFiles
      = ["R/tests/a.spec.js", "R/tests/b.spec.js", "R/tests/c.spec.js",
         "C/tests/d.spec.js"] := by
  have h := c8_default_selection "R"
    ⟨["b.spec.js", "a.spec.js", "c.spec.js", "notes.txt"], some "C", true,
      ["d.spec.js"]⟩ "C" rfl rfl
  exact h.1.trans (by decide)
